import Mathlib

/-!
# Verification of the ustatic static-file serving core

A shallow embedding of the serving core (`index.js` and the sibling serving
module) of the `ustatic` repository: JavaScript string primitives used by the
code (`slice`, `indexOf`, `parseInt`), the Node `path.join`/`path.extname`
model, `decodeURIComponent`, content negotiation, the artifact caches, the
file/read dispatch, the range parser, the 416 path, the header emitters and
the streaming backpressure pump.  Machine integers are modelled as `Nat`/`Int`
(JavaScript numbers stay far below 2^53 in this code), fallible operations
return `Option`, and the HTTP writer is modelled by explicit action lists and
an explicit accepted-bytes state.
-/

namespace UStatic

/-! ## JavaScript string primitives -/

/-- `String.prototype.split(sep)` for a one-character separator, on
character lists (structural, so that concrete witnesses evaluate). -/
def splitOnChar (sep : Char) : List Char → List (List Char)
  | [] => [[]]
  | c :: rest =>
    let r := splitOnChar sep rest
    if c = sep then [] :: r
    else (c :: r.headD []) :: r.tail

/-- `s.split(sep)` for a one-character separator. -/
def jsSplit (s : String) (sep : Char) : List String :=
  (splitOnChar sep s.toList).map List.asString

/-- Join character lists with a separator. -/
def intercalateChar (sep : Char) : List (List Char) → List Char
  | [] => []
  | [l] => l
  | l :: ls => l ++ sep :: intercalateChar sep ls

/-- Clamp a JavaScript slice index: negative indices count from the end,
indices beyond the length clamp to the length. -/
def jsSliceIdx (len : Nat) (i : Int) : Nat :=
  if i < 0 then ((len : Int) + i).toNat else min i.toNat len

/-- JavaScript `String.prototype.slice(a, b)`. -/
def jsSlice (s : String) (a b : Int) : String :=
  let l := s.toList
  let a' := jsSliceIdx l.length a
  let b' := jsSliceIdx l.length b
  ⟨(l.take b').drop a'⟩

/-- JavaScript `String.prototype.slice(a)` (one-argument form). -/
def jsSliceFrom (s : String) (a : Int) : String :=
  jsSlice s a s.toList.length

/-- JavaScript `String.prototype.indexOf` for a single-character needle:
first index of `c` in `s`, `-1` when absent. -/
def jsIndexOfChar (s : String) (c : Char) : Int :=
  match s.toList.findIdx? (· = c) with
  | some i => i
  | none => -1

/-- JavaScript `String.prototype.indexOf(pat)`: index of the first occurrence
of `pat` in `s`, `-1` when there is none. -/
def jsIndexOf (s pat : String) : Int :=
  match (List.range (s.toList.length + 1)).find?
      (fun i => pat.toList.isPrefixOf (s.toList.drop i)) with
  | some i => i
  | none => -1

/-- Decimal value of a digit list (most significant first). -/
def decNat (l : List Char) : Nat :=
  l.foldl (fun a c => a * 10 + (c.toNat - 48)) 0

/-- JavaScript whitespace skipped by `parseInt`. -/
def jsIsSpace (c : Char) : Bool :=
  c = ' ' ∨ c = '\t' ∨ c = '\n' ∨ c = '\r'

/-- JavaScript `parseInt(s)` (radix 10; the legacy `0x` hex form does not
occur in `Range` headers and is not modelled): skip leading whitespace, read
an optional sign and then the longest prefix of decimal digits; `none` models
`NaN`. -/
def jsParseInt (s : String) : Option Int :=
  let l := s.toList.dropWhile jsIsSpace
  let sign : Int := if l.head? = some '-' then -1 else 1
  let l2 := if l.head? = some '-' ∨ l.head? = some '+' then l.tail else l
  let ds := l2.takeWhile Char.isDigit
  if ds.isEmpty then none else some (sign * decNat ds)

/-! ## Node path model (POSIX)

`absolute(root, url, ...xs)` in the source is `path.join(root,
...url.split('/'), ...xs)`.  `path.join` concatenates its parts with `/` and
normalizes: empty and `.` segments vanish, `..` pops the previous segment and,
at the root of an absolute path, is discarded.  `root` is always absolute in
the source (it is built with `path.isAbsolute`/`process.cwd()`), so the model
covers absolute joins. -/

/-- One step of path normalization over a reversed segment stack. -/
def joinStack (acc : List String) (seg : String) : List String :=
  if seg = "" ∨ seg = "." then acc
  else if seg = ".." then acc.tail
  else seg :: acc

/-- `path.join` for an absolute first part: split every part on `/`,
normalize the segment list, and reassemble. -/
def njoin (root : String) (parts : List String) : String :=
  let segs := jsSplit root '/' ++ parts.foldr (fun p acc => jsSplit p '/' ++ acc) []
  let stack := segs.foldl joinStack []
  "/" ++ (intercalateChar '/' (stack.reverse.map String.toList)).asString

/-- `absolute(root, url, ...xs)` from the source: join `root` with the
slash-split URL segments and any extra components. -/
def absolute (root url : String) (xs : List String := []) : String :=
  njoin root (jsSplit url '/' ++ xs)

/-- Index of the last `.` in a character list. -/
def lastDotIdx (cs : List Char) : Option Nat :=
  ((List.range cs.length).filter (fun i => cs.get? i = some '.')).getLast?

/-- `path.extname`: the extension (with dot) of the last path segment, empty
when the basename has no dot or only a leading dot. -/
def extname (p : String) : String :=
  let base := ((jsSplit p '/').getLastD "").toList
  match lastDotIdx base with
  | some i => if i = 0 then "" else ⟨base.drop i⟩
  | none => ""

/-- Extension without the dot, as stored in the request state
(`path.extname(url).slice(1)`). -/
def extOf (url : String) : String :=
  jsSliceFrom (extname url) 1

/-! ## Range header parsing (`stream`, `index.js` lines 171-173)

```js
const end = parseInt(range.slice(range.indexOf('-') + 1)) || size - 1
const start = parseInt(range.slice(6, range.indexOf('-')) || size - end - 1)
const total = end - start + 1
```
-/

/-- `range.indexOf('-')`. -/
def dashIdx (range : String) : Int := jsIndexOfChar range '-'

/-- The parsed `end`: `parseInt` of everything after the first `-`, with
`|| size - 1` collapsing both `NaN` (absent/unparseable) and `0` to
`size - 1`; `end` is therefore never `NaN`. -/
def rangeEnd (range : String) (size : Int) : Int :=
  match jsParseInt (jsSliceFrom range (dashIdx range + 1)) with
  | some n => if n = 0 then size - 1 else n
  | none => size - 1

/-- The parsed `start` (`none` models `NaN`): `parseInt` of the text between
offset 6 and the first `-`; when that slice is the empty string the `||`
falls back to the number `size - end - 1`, and `parseInt` applied to an
integer (via its decimal string) yields that integer. -/
def rangeStartN (range : String) (size : Int) : Option Int :=
  let s := jsSlice range 6 (dashIdx range)
  if s = "" then some (size - rangeEnd range size - 1)
  else jsParseInt s

/-- `total = end - start + 1` (`none` when `start` is `NaN`). -/
def rangeTotal (range : String) (size : Int) : Option Int :=
  (rangeStartN range size).map (fun st => rangeEnd range size - st + 1)

/-! ## HTTP writer actions

Calls the code makes on the uWebSockets.js response object, recorded as an
explicit action list. -/

/-- One observable call on the HTTP response / resource handles. -/
inductive Action
  | writeStatus (s : String)
  | writeHeader (k v : String)
  | endStr (body : String)
  | endBytes (bytes : List Nat)
  | endEmpty
  | closeHandle
  | destroyStream
  deriving DecidableEq, Repr

/-- The status lines written by an action sequence, in order. -/
def statusLines (l : List Action) : List String :=
  l.filterMap (fun a => match a with | .writeStatus s => some s | _ => none)

/-- The header names written by an action sequence, in order. -/
def headerNames (l : List Action) : List String :=
  l.filterMap (fun a => match a with | .writeHeader k _ => some k | _ => none)

/-- `notFoundHandler`: `404 Not Found`, body `Not Found`. -/
def notFoundActions : List Action :=
  [.writeStatus "404 Not Found", .endStr "Not Found"]

/-- `internalErrorHandler`: `500 Internal Server Error` with the error code
appended to the body. -/
def internalErrorActions (code : String) : List Action :=
  [.writeStatus "500 Internal Server Error",
   .endStr ("Internal Server Error: " ++ code)]

/-- `cleanup` in `stream`: close the handle and destroy the read stream. -/
def cleanupActions : List Action := [.closeHandle, .destroyStream]

/-- The stream's `error` event handler (`index.js` lines 209-212):
`res.aborted || internalError(res, req, x)` followed by `cleanup()`. -/
def onErrorActions (aborted : Bool) (code : String) : List Action :=
  (if aborted then [] else internalErrorActions code) ++ cleanupActions

/-- `createEtag(mtime, size, weak)`:
`(weak ? 'W/' : '') + '"' + floor(ms/1000).toString(16) + '-' + size.toString(16) + '"'`. -/
def createEtag (mtimeMs : Nat) (size : Nat) (weak : Bool) : String :=
  (if weak then "W/" else "") ++ "\"" ++ (Nat.toDigits 16 (mtimeMs / 1000)).asString
    ++ "-" ++ (Nat.toDigits 16 size).asString ++ "\""

/-! ## Configuration, request state, artifacts, caches -/

/-- The options bound to a handler instance (`index.js` lines 33-49). -/
structure Config where
  root : String
  compressions : List String := ["gzip", "deflate"]
  lastModified : Bool := true
  etag : Bool := true
  cacheOn : Bool := true
  minStreamSize : Nat := 512 * 1024
  maxCacheSize : Nat := 128 * 1024
  minCompressSize : Nat := 1280
  deriving Repr

/-- Per-request state (`getState`). -/
structure Req where
  url : String
  ext : String
  accept : String := ""
  encoding : String := ""
  range : String := ""
  deriving Repr, DecidableEq

/-- A cacheable materialized response body (`x` in `read`). -/
structure Artifact where
  path : String
  mtimeStr : String   -- `mtime.toUTCString()` rendering of the Date
  mtimeMs : Nat       -- `mtime.getTime()`
  bytes : List Nat
  compressor : Option String
  type : Option String
  deriving Repr, DecidableEq

/-- The four per-encoding cache shards, tracked as (shard name, path) keys
(`caches` in `index.js`; artifact values are irrelevant to the claims). -/
structure Caches where
  entries : List (String × String)
  deriving Repr, DecidableEq

/-- `caches[shard].has(path)`. -/
def Caches.hasKey (c : Caches) (shard path : String) : Bool :=
  (shard, path) ∈ c.entries

/-- `caches[shard].set(path, _)`. -/
def Caches.insert (c : Caches) (shard path : String) : Caches :=
  ⟨(shard, path) :: c.entries⟩

/-- `compressor || 'identity'`: the shard a compressor value selects. -/
def shardOf (compressor : Option String) : String :=
  compressor.getD "identity"

/-! ## Header emitters -/

/-- `send` (`index.js` lines 144-153): the corked whole-file response. -/
def sendActions (cfg : Config) (a : Artifact) : List Action :=
  [.writeHeader "Connection" "keep-alive"]
  ++ (if cfg.lastModified then [.writeHeader "Last-Modified" a.mtimeStr] else [])
  ++ (if cfg.etag then
        [.writeHeader "ETag" (createEtag a.mtimeMs a.bytes.length a.compressor.isSome)]
      else [])
  ++ (match a.type with | some t => [.writeHeader "Content-Type" t] | none => [])
  ++ (match a.compressor with | some c => [.writeHeader "Content-Encoding" c] | none => [])
  ++ [.endBytes a.bytes]

/-- The stream header cork (`index.js` lines 194-202).  Note: unlike `send`,
this path writes `Last-Modified` and `ETag` unconditionally — the `cfg`
argument is received (the function closes over the options) but its
`lastModified`/`etag` flags are never consulted by the source. -/
def streamHeaderActions (_cfg : Config) (range : String) (mtimeStr : String)
    (mtimeMs : Nat) (size : Nat) (compressor : Option String)
    (type : Option String) (start endV : Int) : List Action :=
  (if range ≠ "" then [.writeStatus "206 Partial Content"]
   else [.writeHeader "Accept-Ranges" "bytes"])
  ++ [.writeHeader "Connection" "keep-alive",
      .writeHeader "Last-Modified" mtimeStr,
      .writeHeader "ETag" (createEtag mtimeMs size compressor.isSome)]
  ++ (match compressor with | some c => [.writeHeader "Content-Encoding" c] | none => [])
  ++ (if range ≠ "" then
        [.writeHeader "Content-Range"
          ("bytes " ++ toString start ++ "-" ++ toString endV ++ "/" ++ toString size)]
      else [])
  ++ (match type with | some t => [.writeHeader "Content-Type" t] | none => [])

/-! ## The 416 gate of `stream` (`index.js` lines 159-182) -/

/-- What `stream` decides after the stat, before opening a read stream. -/
inductive StreamSetup
  | abortedCleanup
  | notSatisfiable (contentRange : String) (body : String)
  | proceed (start : Option Int) (endV : Int) (total : Option Int)
  deriving DecidableEq, Repr

/-- The pre-body part of `stream`: the abort re-check after the stat, the
range parse, and the `end >= size` gate. -/
def streamSetup (aborted : Bool) (range : String) (size : Int) : StreamSetup :=
  if aborted then .abortedCleanup
  else
    let endV := rangeEnd range size
    let startV := rangeStartN range size
    let total := rangeTotal range size
    if endV ≥ size then
      .notSatisfiable ("bytes */" ++ toString (size - 1)) "Range Not Satisfiable"
    else
      .proceed startV endV total

/-- The byte range `createReadStream({start, end})` is opened over, `none`
when the setup never reaches the stream open. -/
def opensRange : StreamSetup → Option (Option Int × Int)
  | .proceed s e _ => some (s, e)
  | _ => none

/-- The actions emitted by the 416 branch (`index.js` lines 176-181):
status, `Content-Range`, body — and then `cleanup()`; no file body bytes. -/
def notSatisfiableActions (size : Int) : List Action :=
  [.writeStatus "416 Range Not Satisfiable",
   .writeHeader "Content-Range" ("bytes */" ++ toString (size - 1)),
   .endStr "Range Not Satisfiable"]
  ++ cleanupActions

/-! ## MIME table

Modelled from the spec: `mimes.js` is not under `src/` (only its importers
are).  The spec describes it as a static extension → media-type lookup and a
closed compressibility predicate over media types (`text/*`,
`application/json`, `application/javascript`, `image/svg+xml`, …). -/

/-- Modelled from the spec: the extension → media-type lookup of `mimes.js`
(undotted keys, as produced by `path.extname(url).slice(1)`), restricted to
the types exercised here. -/
def mimes : String → Option String := fun ext =>
  if ext = "txt" then some "text/plain"
  else if ext = "html" then some "text/html"
  else if ext = "js" then some "text/javascript"
  else if ext = "json" then some "application/json"
  else if ext = "svg" then some "image/svg+xml"
  else if ext = "mp4" then some "video/mp4"
  else none

/-- Modelled from the spec: the `compressable` media-type set of `mimes.js`. -/
def compressable : List String :=
  ["text/plain", "text/html", "text/javascript", "application/json", "image/svg+xml"]

/-! ## Content negotiation (`parseAcceptEncoding`, `getEncoding`) -/

/-- An entry of the parsed `Accept-Encoding` list; `q = none` models a `NaN`
quality (unparseable float). -/
structure AcceptEntry where
  type : String
  q : Option ℚ
  deriving DecidableEq, Repr

/-- JavaScript `parseFloat` restricted to sign + decimal digits + optional
fraction (exponents do not occur in quality values); `none` models `NaN`. -/
def jsParseFloat (s : String) : Option ℚ :=
  let l := s.toList.dropWhile jsIsSpace
  let signed : ℚ × List Char :=
    match l with
    | '-' :: r => (-1, r)
    | '+' :: r => (1, r)
    | _ => (1, l)
  let ds := signed.2.takeWhile Char.isDigit
  let rest := signed.2.drop ds.length
  let frac : List Char :=
    match rest with
    | '.' :: r => r.takeWhile Char.isDigit
    | _ => []
  if ds.isEmpty ∧ frac.isEmpty then none
  else some (signed.1 * ((decNat ds : ℚ) + (decNat frac : ℚ) / (10 : ℚ) ^ frac.length))

/-- `Array.prototype.indexOf` on a string list. -/
def jsArrIndexOf (l : List String) (s : String) : Int :=
  match l.findIdx? (· = s) with
  | some i => i
  | none => -1

/-- The quality used in sort comparisons; a `NaN` quality makes the JS
comparator return `NaN`, leaving the order unspecified — modelled as `0`
(never reached by the claims, whose headers carry well-formed qualities). -/
def qVal : Option ℚ → ℚ
  | some q => q
  | none => 0

/-- The sort comparator of `parseAcceptEncoding` as a `≤` test:
`(a, b) => a.q === b.q ? indexOf(a.type) - indexOf(b.type) : b.q - a.q`. -/
def acceptLE (compressions : List String) (a b : AcceptEntry) : Bool :=
  if a.q = b.q then jsArrIndexOf compressions a.type ≤ jsArrIndexOf compressions b.type
  else qVal b.q ≤ qVal a.q

/-- Stable insertion into a sorted list: `a` goes before the first element
not strictly below it, so earlier elements win ties (the stability
guarantee of `Array.prototype.sort`). -/
def insertSorted (le : AcceptEntry → AcceptEntry → Bool) (a : AcceptEntry) :
    List AcceptEntry → List AcceptEntry
  | [] => [a]
  | b :: l => if le b a ∧ ¬ le a b then b :: insertSorted le a l else a :: b :: l

/-- `Array.prototype.sort` (stable) modelled as stable insertion sort. -/
def jsSort (le : AcceptEntry → AcceptEntry → Bool) : List AcceptEntry → List AcceptEntry
  | [] => []
  | a :: l => insertSorted le a (jsSort le l)

/-- JavaScript `String.prototype.trim` (ASCII whitespace suffices here). -/
def jsTrim (s : String) : String :=
  ⟨((s.toList.dropWhile jsIsSpace).reverse.dropWhile jsIsSpace).reverse⟩

/-- `e.split(';q=')`: the part before the first `;q=` and, when one occurs,
the part between it and the next `;q=` / the end (`x[0]` and `x[1]`). -/
def splitSemiQ : List Char → List Char × Option (List Char)
  | [] => ([], none)
  | ';' :: 'q' :: '=' :: rest => ([], some rest)
  | c :: rest =>
    let r := splitSemiQ rest
    (c :: r.1, r.2)

/-- `parseAcceptEncoding(x, compressions)` (`index.js` lines 340-347):
split on `,`, split each entry on `;q=`, trim the type, default the quality
to 1, drop zero-quality and unsupported entries, sort by quality with the
server preference order as tie-break. -/
def parseAcceptEncoding (x : String) (compressions : List String) : List AcceptEntry :=
  ((jsSplit x ',').map (fun e =>
      let parts := splitSemiQ e.toList
      { type := jsTrim ⟨parts.1⟩
        q := match parts.2 with
             | none => some 1
             | some [] => some 1
             | some qs => jsParseFloat ⟨(splitSemiQ qs).1⟩ : AcceptEntry }))
    |>.filter (fun e => e.q ≠ some 0 ∧ jsArrIndexOf compressions e.type ≠ -1)
    |> jsSort (acceptLE compressions)

/-- The names the `x.type in compressors` membership test recognizes. -/
def compressorNames : List String := ["identity", "gzip", "deflate", "br"]

/-- `getEncoding(x, supported, type)` (`index.js` lines 325-338): `none`
models every falsy return (`undefined`, `null`, `false`); a negotiated
`identity` is mapped to `null`. -/
def getEncoding (x : String) (supported : List String) (type : Option String) :
    Option String :=
  if x = "" then none
  else
    let accepted := parseAcceptEncoding x supported
    let compressor :=
      match accepted.find? (fun e => decide (e.type ∈ compressorNames)) with
      | some e => if e.type = "identity" then none else some e.type
      | none => none
    match type with
    | some t => if t ∈ compressable then compressor else none
    | none => none

/-! ## The `file` / `read` dispatch (`index.js` lines 87-142) -/

/-- The media type `file` computes:
`mimes.get(res[state].ext) || mimes.get(path.extname(file))`. -/
def mimeOf (ext p : String) : Option String :=
  (mimes ext).orElse (fun _ => mimes (extname p))

/-- The compressor `file` negotiates before the stat:
`compressions && compressions.length ? getEncoding(...) : null`. -/
def negotiatedCompressor (cfg : Config) (st : Req) (p : String) : Option String :=
  if cfg.compressions ≠ [] then getEncoding st.encoding cfg.compressions (mimeOf st.ext p)
  else none

/-- What `file` decides for a request. -/
inductive FileOutcome
  | notFound
  | streamRange (p : String) (range : String)
  | cacheHit (shard : String) (p : String)
  | readDisk (p : String) (type : Option String) (compressor0 : Option String)
  deriving DecidableEq, Repr

/-- `file(res, req, file)` (`index.js` lines 87-103): containment guard,
range branch, cache lookup keyed by the pre-stat compressor shard, else
`read`. -/
def fileStep (cfg : Config) (caches : Caches) (st : Req) (p : String) : FileOutcome :=
  if jsIndexOf p cfg.root ≠ 0 then .notFound
  else if st.range ≠ "" then .streamRange p st.range
  else
    let compressor := negotiatedCompressor cfg st p
    if cfg.cacheOn ∧ Caches.hasKey caches (shardOf compressor) p then
      .cacheHit (shardOf compressor) p
    else .readDisk p (mimeOf st.ext p) compressor

/-- The path a `file` outcome opens on disk (`fsp.open`), if any — cache
hits and 404s open nothing. -/
def opensPath : FileOutcome → Option String
  | .streamRange p _ => some p
  | .readDisk p _ _ => some p
  | _ => none

/-- A stat result (`fs.promises` file handle + stat). -/
structure FsFile where
  size : Nat
  mtimeStr : String
  mtimeMs : Nat
  bytes : List Nat
  deriving Repr, DecidableEq

/-- The result of a full non-range request. -/
inductive ReqOutcome
  | notFound
  | rangeStream (p : String)
  | cacheHit (shard : String) (p : String)
  | diskSent (p : String)
  | diskStream (p : String)
  | diskMissing
  | diskAborted
  deriving DecidableEq, Repr

/-- `file` followed by `read` (`index.js` lines 87-142): the disk is modelled
by `fs`, zlib by `compressFn` (an external collaborator), `transform` is the
default `null`.  Returns the outcome and the caches after the request. -/
def handleFile (cfg : Config) (caches : Caches) (st : Req)
    (fs : String → Option FsFile) (compressFn : String → List Nat → List Nat)
    (aborted : Bool) : ReqOutcome × Caches :=
  let p := absolute cfg.root st.url
  match fileStep cfg caches st p with
  | .notFound => (.notFound, caches)
  | .streamRange q _ => (.rangeStream q, caches)
  | .cacheHit shard q => (.cacheHit shard q, caches)
  | .readDisk q type comp0 =>
    match fs q with
    | none => (.diskMissing, caches)
    | some f =>
      let comp := if f.size < cfg.minCompressSize then none else comp0
      if f.size ≥ cfg.minStreamSize then (.diskStream q, caches)
      else
        let bytes := match comp with | some c => compressFn c f.bytes | none => f.bytes
        let _a : Artifact := ⟨q, f.mtimeStr, f.mtimeMs, bytes, comp, type⟩
        let caches' := if cfg.cacheOn ∧ f.size < cfg.maxCacheSize
          then caches.insert (shardOf comp) q else caches
        ((if aborted then .diskAborted else .diskSent q), caches')

/-- `n` identical live (non-aborted) requests in sequence, threading the
caches. -/
def iterateReq (cfg : Config) (st : Req) (fs : String → Option FsFile)
    (compressFn : String → List Nat → List Nat) :
    Nat → Caches → List ReqOutcome × Caches
  | 0, c => ([], c)
  | n + 1, c =>
    let r := handleFile cfg c st fs compressFn false
    let rest := iterateReq cfg st fs compressFn n r.2
    (r.1 :: rest.1, rest.2)

/-! ## The `rewrite` dispatcher (`index.js` lines 70-85)

```js
async function rewrite(res, req, rewritten) {
  if (rewritten === true) return
  if (rewritten === false) return file(res, req)
  if (typeof rewritten === 'string') {
    res[state].ext = path.extname(rewritten).slice(1)
    return file(res, req, absolute(root, rewritten))
  }
  rewritten ? file(res, req, absolute(root, rewritten))
            : notFound(res, req, notFoundHandler)
}
```
-/

/-- A JavaScript value an index function can return. -/
inductive JsVal
  | vTrue
  | vFalse
  | vStr (s : String)
  | vPromise          -- a pending future (thenable object)
  | vNull
  | vUndefined
  | vNum (n : Int)
  | vObj
  deriving DecidableEq, Repr

/-- JavaScript truthiness for the values above (evaluated only after the
`true`/`false`/string branches). -/
def truthy : JsVal → Bool
  | .vTrue => true
  | .vFalse => false
  | .vStr s => s ≠ ""
  | .vPromise => true
  | .vNull => false
  | .vUndefined => false
  | .vNum n => n ≠ 0
  | .vObj => true

/-- What the `rewrite` dispatcher does with an index-function return value. -/
inductive RewriteOutcome
  | dispatchNothing                 -- `rewritten === true`
  | fileOutcome (o : FileOutcome)   -- served through `file`
  | notFoundEmit                    -- falsy non-`false` value
  | throwTypeError                  -- truthy non-string: `absolute` calls
                                    -- `rewritten.split('/')`, which throws;
                                    -- the async function rejects unhandled
  deriving DecidableEq, Repr

/-- The `rewrite` dispatcher.  A string rewrite updates the state's `ext`
and re-enters `file` at `absolute(root, rewritten)`; any other truthy value
(a promise included — it is never awaited) reaches
`absolute(root, rewritten)`, whose `rewritten.split('/')` throws a
`TypeError` inside the `async` function, producing no response. -/
def rewriteStep (cfg : Config) (caches : Caches) (st : Req) (v : JsVal) :
    RewriteOutcome :=
  match v with
  | .vTrue => .dispatchNothing
  | .vFalse => .fileOutcome (fileStep cfg caches st (absolute cfg.root st.url))
  | .vStr s =>
      .fileOutcome (fileStep cfg caches { st with ext := extOf s } (absolute cfg.root s))
  | v => if truthy v then .throwTypeError else .notFoundEmit

/-- The path a `rewrite` outcome opens on disk, if any. -/
def rewriteOpens : RewriteOutcome → Option String
  | .fileOutcome o => opensPath o
  | _ => none

/-! ## The default index handler (`index.js` lines 279-311) -/

/-- The index memo (`indexes` map): decoded URL → rewrite string. -/
structure Memo where
  entries : List (String × String)
  deriving DecidableEq, Repr

/-- `indexes.get(url)` / `indexes.has(url)`. -/
def Memo.get? (m : Memo) (k : String) : Option String :=
  (m.entries.find? (fun e => e.1 = k)).map (·.2)

/-- `canRead(x)`: `fs.statSync(x).isFile()` with thrown errors mapped to a
falsy return; `fsIsFile` models the disk. -/
def canRead (fsIsFile : String → Bool) (p : String) : Bool := fsIsFile p

/-- `indexResolve(res, url, ext, root)` (`index.js` lines 307-311); also
returns the list of paths it stats (the disk probes). -/
def indexResolveM (fsIsFile : String → Bool) (root url ext : String) :
    Option String × List String :=
  let p1 := absolute root url ["index" ++ ext]
  if canRead fsIsFile p1 then (some (url ++ "/index" ++ ext), [p1])
  else
    let p2 := absolute root (url ++ ext)
    if canRead fsIsFile p2 then (some (url ++ ext), [p1, p2])
    else (none, [p1, p2])

/-- What the default index handler returns to the dispatcher. -/
inductive IdxRes
  | ret (s : String)   -- a URL / rewrite string
  | handled            -- `true`: the 301 response was already emitted
  deriving DecidableEq, Repr

/-- `findIndex(res, req)` (`index.js` lines 287-303): serve the URL as-is
when it names a readable file; otherwise try the `.html` (or `.js`)
resolutions and, on success, emit a `301 Moved Permanently` and return
`true`.  Returns (result, disk probes, emitted actions).  Note: it never
writes to the `indexes` memo. -/
def findIndexM (fsIsFile : String → Bool) (root accept url : String) :
    IdxRes × List String × List Action :=
  let p0 := absolute root url
  if canRead fsIsFile p0 then (.ret url, [p0], [])
  else
    let rw :=
      if jsIndexOf accept "text/html" = 0 then indexResolveM fsIsFile root url ".html"
      else if accept = "*/*" then indexResolveM fsIsFile root url ".js"
      else (none, [])
    match rw.1 with
    | none => (.ret url, p0 :: rw.2, [])
    | some loc =>
        (.handled, p0 :: rw.2,
         [.writeStatus "301 Moved Permanently", .writeHeader "Location" loc, .endEmpty])

/-- The result of one `indexHandler` invocation. -/
structure IdxOut where
  result : IdxRes
  urlAfter : String          -- `res[state].url` after the trailing-slash strip
  memoAfter : Memo
  probes : List String       -- paths `fs.statSync` touched
  actions : List Action
  deriving DecidableEq, Repr

/-- `indexHandler(res, req, next)` (`index.js` lines 279-285): strip a
trailing slash in place, consult the memo keyed by the pre-strip URL when
caching, else run `findIndex`. -/
def indexHandlerM (fsIsFile : String → Bool) (root accept : String)
    (cacheOn : Bool) (memo : Memo) (url0 : String) : IdxOut :=
  let stripped := if url0.toList.getLast? = some '/' then ⟨url0.toList.dropLast⟩ else url0
  match if cacheOn then memo.get? url0 else none with
  | some hit => ⟨.ret hit, stripped, memo, [], []⟩
  | none =>
    let r := findIndexM fsIsFile root accept stripped
    ⟨r.1, stripped, memo, r.2.1, r.2.2⟩

/-! ## `decodeURIComponent` and the handler entry (`index.js` lines 53-68) -/

/-- Value of a hex digit. -/
def hexVal (c : Char) : Option Nat :=
  if '0' ≤ c ∧ c ≤ '9' then some (c.toNat - 48)
  else if 'a' ≤ c ∧ c ≤ 'f' then some (c.toNat - 87)
  else if 'A' ≤ c ∧ c ≤ 'F' then some (c.toNat - 55)
  else none

/-- The byte of a `%ab` escape. -/
def pctByte (a b : Char) : Option Nat :=
  match hexVal a, hexVal b with
  | some h, some l => some (16 * h + l)
  | _, _ => none

/-- Phase 1 of ECMA-262 `decodeURIComponent`: unescape.  Every `%` must be
followed by exactly two hex digits, yielding a byte token; all other
characters pass through as character tokens.  `none` models the thrown
`URIError`. -/
def pctTokens : List Char → Option (List (Char ⊕ Nat))
  | [] => some []
  | '%' :: a :: b :: rest =>
    match pctByte a b with
    | none => none
    | some v => (Sum.inr v :: ·) <$> pctTokens rest
  | '%' :: _ => none   -- fewer than two characters after '%'
  | c :: rest => (Sum.inl c :: ·) <$> pctTokens rest

/-- Is `b` a UTF-8 continuation byte? -/
def contByte (b : Nat) : Bool := 0x80 ≤ b ∧ b ≤ 0xBF

/-- Phase 2 of ECMA-262 `decodeURIComponent`: escape bytes must form strict
UTF-8 sequences (continuations in range, no overlongs, no surrogates, max
`U+10FFFF`), each sequence arriving entirely through consecutive escapes;
character tokens pass through. -/
def utf8Tokens : List (Char ⊕ Nat) → Option (List Char)
  | [] => some []
  | .inl c :: rest => (c :: ·) <$> utf8Tokens rest
  | .inr b0 :: rest =>
    if b0 < 0x80 then (Char.ofNat b0 :: ·) <$> utf8Tokens rest
    else if 0xC2 ≤ b0 ∧ b0 ≤ 0xDF then
      match rest with
      | .inr b1 :: rest2 =>
        if contByte b1 then
          (Char.ofNat ((b0 - 0xC0) * 64 + (b1 - 0x80)) :: ·) <$> utf8Tokens rest2
        else none
      | _ => none
    else if 0xE0 ≤ b0 ∧ b0 ≤ 0xEF then
      match rest with
      | .inr b1 :: .inr b2 :: rest2 =>
        let lo1 := if b0 = 0xE0 then 0xA0 else 0x80
        let hi1 := if b0 = 0xED then 0x9F else 0xBF
        if lo1 ≤ b1 ∧ b1 ≤ hi1 ∧ contByte b2 then
          (Char.ofNat ((b0 - 0xE0) * 4096 + (b1 - 0x80) * 64 + (b2 - 0x80)) :: ·)
            <$> utf8Tokens rest2
        else none
      | _ => none
    else if 0xF0 ≤ b0 ∧ b0 ≤ 0xF4 then
      match rest with
      | .inr b1 :: .inr b2 :: .inr b3 :: rest2 =>
        let lo1 := if b0 = 0xF0 then 0x90 else 0x80
        let hi1 := if b0 = 0xF4 then 0x8F else 0xBF
        if lo1 ≤ b1 ∧ b1 ≤ hi1 ∧ contByte b2 ∧ contByte b3 then
          (Char.ofNat ((b0 - 0xF0) * 262144 + (b1 - 0x80) * 4096
            + (b2 - 0x80) * 64 + (b3 - 0x80)) :: ·) <$> utf8Tokens rest2
        else none
      | _ => none
    else none        -- stray continuation byte or invalid lead (C0, C1, F5..FF)

/-- `decodeURIComponent`; `none` models a thrown `URIError`. -/
def decodeURIComponent (s : String) : Option String :=
  (pctTokens s.toList >>= utf8Tokens).map List.asString

/-- A URL contains a malformed percent-encoding: some `%` is not followed by
two hex digits. -/
def pctMalformed : List Char → Bool
  | [] => false
  | '%' :: a :: b :: rest => (pctByte a b).isNone || pctMalformed rest
  | '%' :: _ => true
  | _ :: rest => pctMalformed rest

/-- `getState(req)` (`index.js` lines 60-68); `none` models the
`decodeURIComponent` `URIError` escaping before the state is built. -/
def getStateM (urlIndex : Nat) (rawUrl acceptH encodingH rangeH : String) :
    Option Req :=
  (decodeURIComponent (jsSliceFrom rawUrl urlIndex)).map fun url =>
    { url, ext := extOf url, accept := acceptH, encoding := encodingH, range := rangeH }

/-- What a handler invocation does at top level. -/
inductive HandlerResult
  | threwURIError                        -- exception escaped: nothing written,
                                         -- no emitter ran
  | indexPath (st : Req)                 -- handed to the index/rewrite machinery
  | dispatched (st : Req) (o : ReqOutcome)
  deriving DecidableEq, Repr

/-- The returned handler (`index.js` lines 53-58): build the state (the
`decodeURIComponent` call may throw — the handler has no catch), then branch
on the extension. -/
def handlerStep (cfg : Config) (caches : Caches) (fs : String → Option FsFile)
    (compressFn : String → List Nat → List Nat) (urlIndex : Nat)
    (rawUrl acceptH encodingH rangeH : String) : HandlerResult :=
  match getStateM urlIndex rawUrl acceptH encodingH rangeH with
  | none => .threwURIError
  | some st =>
    if st.ext = "" then .indexPath st
    else .dispatched st (handleFile cfg caches st fs compressFn false).1

/-! ## The known-total backpressure pump (`tryData`, `index.js` lines 225-262)

The uWebSockets.js writer is modelled by the list of bytes it has accepted;
`getWriteOffset()` is its length and `onWritable` hands the handler that
offset.  An adversarial schedule fixes how many bytes each `tryEnd` call
accepts (a prefix of the chunk passed), modelling a throttled writer. -/

/-- The HTTP writer: accepted bytes and the response total. -/
structure Writer where
  written : List Nat
  total : Nat
  deriving DecidableEq, Repr

/-- `res.tryEnd(chunk, total)` under an acceptance budget `k`: the writer
accepts a `k`-prefix of the chunk; `ok` iff the whole chunk was accepted,
`done` iff the total has been reached. -/
def tryEnd (w : Writer) (chunk : List Nat) (k : Nat) : Writer × Bool × Bool :=
  let t := min k chunk.length
  let w' : Writer := { w with written := w.written ++ chunk.take t }
  (w', t = chunk.length, decide (w'.written.length ≥ w.total))

/-- How one chunk ends. -/
inductive PumpStep
  | finished   -- `done`: stream destroyed, `res.aborted = true`
  | next       -- `ok`: `stream.resume()`, next chunk
  | stalled    -- schedule exhausted while waiting on `onWritable`
  deriving DecidableEq, Repr

/-- The registered `onWritable` retry loop (`index.js` lines 245-261): each
writable event retries `tryEnd(ab.slice(offset - lastOffset), total)`; on an
incomplete retry the code sets `lastOffset = res.getWriteOffset()`. -/
def pumpRetry (w : Writer) (ab : List Nat) (lastOffset : Nat) :
    List Nat → Writer × PumpStep × List Nat
  | [] => (w, .stalled, [])
  | k :: ks =>
    let offset := w.written.length
    let r := tryEnd w (ab.drop (offset - lastOffset)) k
    if r.2.2 then (r.1, .finished, ks)
    else if r.2.1 then (r.1, .next, ks)
    else pumpRetry r.1 ab r.1.written.length ks

/-- `tryData(x)` for one data chunk (`index.js` lines 225-243): snapshot
`lastOffset = getWriteOffset()`, `tryEnd` the whole chunk, and on
backpressure pause and enter the retry loop. -/
def pumpChunk (w : Writer) (ab : List Nat) :
    List Nat → Writer × PumpStep × List Nat
  | [] => (w, .stalled, [])
  | k :: ks =>
    let lastOffset := w.written.length
    let r := tryEnd w ab k
    if r.2.2 then (r.1, .finished, ks)
    else if r.2.1 then (r.1, .next, ks)
    else pumpRetry r.1 ab lastOffset ks

/-- The whole pump: feed the file-range chunks through `tryData` in order;
returns the final writer and whether the transfer reported `done`. -/
def pump (w : Writer) : List (List Nat) → List Nat → Writer × Bool
  | [], _ => (w, false)
  | ab :: chunks, sched =>
    match pumpChunk w ab sched with
    | (w', .finished, _) => (w', true)
    | (w', .next, ks) => pump w' chunks ks
    | (w', .stalled, _) => (w', false)

/-- Does an action list deliver file body bytes? -/
def sendsFileBytes (l : List Action) : Bool :=
  l.any fun a => match a with | .endBytes _ => true | _ => false

/-- `p` is the root itself or lies inside the root directory (what
"containment in `root`" means for a filesystem path, as opposed to the
byte-prefix test the code performs). -/
def insideRootDir (root p : String) : Bool :=
  p = root || (root.toList ++ ['/']).isPrefixOf p.toList

/-! ## Helper lemmas -/

theorem fileStep_guard {cfg : Config} {caches : Caches} {st : Req} {p : String}
    (h : jsIndexOf p cfg.root ≠ 0) : fileStep cfg caches st p = .notFound := by
  unfold fileStep
  rw [if_pos h]

theorem opensPath_fileStep {cfg : Config} {caches : Caches} {st : Req} {p q : String}
    (h : opensPath (fileStep cfg caches st p) = some q) :
    q = p ∧ jsIndexOf p cfg.root = 0 := by
  unfold fileStep at h
  by_cases hg : jsIndexOf p cfg.root ≠ 0
  · rw [if_pos hg] at h
    simp [opensPath] at h
  · rw [if_neg hg] at h
    refine ⟨?_, not_not.mp hg⟩
    by_cases hr : st.range ≠ ""
    · rw [if_pos hr] at h
      simpa [opensPath] using h.symm
    · rw [if_neg hr] at h
      dsimp only at h
      split at h
      · simp [opensPath] at h
      · simpa [opensPath] using h.symm

/-! ## Claims -/

/-- C1 counterexample: with `root = "/srv/www"` the URL
`"/../www-secret/x.txt"` joins to `"/srv/www-secret/x.txt"`: it passes the
byte-prefix containment check (`file.indexOf(root) === 0`) and is handed to
`read`, which opens it — yet the path lies outside the root directory (it is
a sibling of the root whose name merely extends the root's bytes), refuting
"a file outside the root directory is never opened". -/
theorem c1_counterexample :
    opensPath (fileStep {root := "/srv/www"} ⟨[]⟩
        {url := "/../www-secret/x.txt", ext := "txt"}
        (absolute "/srv/www" "/../www-secret/x.txt")) = some "/srv/www-secret/x.txt"
    ∧ insideRootDir "/srv/www" "/srv/www-secret/x.txt" = false := by
  decide

/-- C1 (amended): the containment verification the code actually provides —
for every request URL, including rewrite strings from an index handler, the
joined absolute path is byte-prefix checked against `root` before any file
is opened; when the check fails a 404 is emitted and no file is opened, and
every path that is opened begins with `root`'s bytes (which does not imply
it lies inside the root directory). -/
theorem c1_prefix_check_before_open (cfg : Config) (caches : Caches) (st : Req)
    (p : String) (v : JsVal) :
    (jsIndexOf p cfg.root ≠ 0 → fileStep cfg caches st p = .notFound) ∧
    (∀ q, opensPath (fileStep cfg caches st p) = some q →
      q = p ∧ jsIndexOf q cfg.root = 0) ∧
    (∀ q, rewriteOpens (rewriteStep cfg caches st v) = some q →
      jsIndexOf q cfg.root = 0) := by
  refine ⟨fun h => fileStep_guard h, fun q h => ?_, fun q h => ?_⟩
  · obtain ⟨rfl, h0⟩ := opensPath_fileStep h
    exact ⟨rfl, h0⟩
  · cases v with
    | vTrue => simp [rewriteStep, rewriteOpens] at h
    | vFalse =>
        simp only [rewriteStep, rewriteOpens] at h
        obtain ⟨rfl, h0⟩ := opensPath_fileStep h
        exact h0
    | vStr s =>
        simp only [rewriteStep, rewriteOpens] at h
        obtain ⟨rfl, h0⟩ := opensPath_fileStep h
        exact h0
    | vPromise => simp [rewriteStep, rewriteOpens, truthy] at h
    | vNull => simp [rewriteStep, rewriteOpens, truthy] at h
    | vUndefined => simp [rewriteStep, rewriteOpens, truthy] at h
    | vNum n =>
        simp only [rewriteStep] at h
        by_cases hn : n = 0
        · simp [truthy, hn, rewriteOpens] at h
        · simp [truthy, hn, rewriteOpens] at h
    | vObj => simp [rewriteStep, rewriteOpens, truthy] at h

/-- C1 witness: the theorem applied at a escaping URL whose join does not
begin with `root`: the guard hypothesis holds and a 404 results. -/
theorem c1_witness :
    jsIndexOf (absolute "/srv" "/../../etc/passwd") "/srv" ≠ 0 ∧
    fileStep {root := "/srv"} ⟨[]⟩ {url := "/../../etc/passwd", ext := ""}
      (absolute "/srv" "/../../etc/passwd") = .notFound :=
  ⟨by decide,
   (c1_prefix_check_before_open {root := "/srv"} ⟨[]⟩
      {url := "/../../etc/passwd", ext := ""} (absolute "/srv" "/../../etc/passwd")
      JsVal.vTrue).1 (by decide)⟩

/-- C2 counterexample: a read-stream `error` event arriving after the 206
header cork, on a live request (`res.aborted` still false), runs
`internalError`, which writes a second status line (`500`) and a body — the
response is not ended silently. -/
theorem c2_counterexample :
    statusLines
      (streamHeaderActions {root := "/srv"} "bytes=0-1"
          "Thu, 01 Jan 1970 00:00:00 GMT" 0 10 none (some "text/plain") 0 1
        ++ onErrorActions false "EIO")
      = ["206 Partial Content", "500 Internal Server Error"]
    ∧ Action.endStr "Internal Server Error: EIO" ∈ onErrorActions false "EIO" := by
  decide

/-- C2 (amended): errors on the stream are handled silently (stream
destroyed, nothing written) exactly when `res.aborted` is already set; on a
live request the `error` handler invokes `internalError`, which writes a
`500` status line and body, and then the stream is destroyed. -/
theorem c2_silent_only_when_aborted (code : String) :
    onErrorActions true code = cleanupActions ∧
    statusLines (onErrorActions true code) = [] ∧
    statusLines (onErrorActions false code) = ["500 Internal Server Error"] ∧
    Action.destroyStream ∈ onErrorActions true code ∧
    Action.destroyStream ∈ onErrorActions false code := by
  simp [onErrorActions, internalErrorActions, cleanupActions, statusLines]

/-- C3: the `rewrite` dispatcher never awaits a future — a promise returned
by a caller-supplied index function falls into the truthy branch, where
`absolute(root, rewritten)` calls `rewritten.split('/')` and throws a
`TypeError` inside the `async` function (an unhandled rejection, no
response); likewise any other truthy non-string value throws instead of
producing the documented 404. -/
theorem c3_promise_not_awaited :
    rewriteStep {root := "/srv"} ⟨[]⟩ {url := "/app", ext := ""} .vPromise
      = .throwTypeError ∧
    rewriteStep {root := "/srv"} ⟨[]⟩ {url := "/app", ext := ""} (.vNum 7)
      = .throwTypeError ∧
    rewriteStep {root := "/srv"} ⟨[]⟩ {url := "/app", ext := ""} .vObj
      = .throwTypeError := by
  decide

/-- C4: `findIndex` never writes to the `indexes` memo — the memo a request
consults is never populated, so a second identical request re-probes the
disk.  First conjunct: the memo after any `indexHandler` invocation equals
the memo before it.  Second conjunct: with `/srv/app/index.html` on disk and
caching on, the request after a first successful resolution of `/app` still
stats the disk (`/srv/app`, then `/srv/app/index.html`). -/
theorem c4_memo_never_populated :
    (∀ (fsIsFile : String → Bool) (root accept : String) (cacheOn : Bool)
       (memo : Memo) (url0 : String),
       (indexHandlerM fsIsFile root accept cacheOn memo url0).memoAfter = memo) ∧
    (indexHandlerM (fun p => p = "/srv/app/index.html") "/srv" "text/html" true
        (indexHandlerM (fun p => p = "/srv/app/index.html") "/srv" "text/html" true
          ⟨[]⟩ "/app").memoAfter
        "/app").probes = ["/srv/app", "/srv/app/index.html"] := by
  constructor
  · intro fsIsFile root accept cacheOn memo url0
    simp only [indexHandlerM]
    split <;> rfl
  · decide

/-- C5 counterexample: with `lastModified` and `etag` both configured off, a
range/streamed response still carries both headers — the stream header cork
writes them unconditionally, refuting "emitted if and only if the option is
true". -/
theorem c5_counterexample :
    "Last-Modified" ∈ headerNames
      (streamHeaderActions {root := "/srv", lastModified := false, etag := false}
        "bytes=0-1" "Thu, 01 Jan 1970 00:00:00 GMT" 0 10 none (some "text/plain") 0 1) ∧
    "ETag" ∈ headerNames
      (streamHeaderActions {root := "/srv", lastModified := false, etag := false}
        "bytes=0-1" "Thu, 01 Jan 1970 00:00:00 GMT" 0 10 none (some "text/plain") 0 1) ∧
    Config.lastModified {root := "/srv", lastModified := false, etag := false} = false ∧
    Config.etag {root := "/srv", lastModified := false, etag := false} = false := by
  decide

/-- C5 (amended): on the whole-file `send` path, `Last-Modified` is emitted
iff the `lastModified` option is true and `ETag` iff the `etag` option is
true; on the streamed/range path both headers are always emitted, whatever
the options say. -/
theorem c5_headers_send_iff_stream_always (cfg : Config) (a : Artifact)
    (range mtimeStr : String) (mtimeMs size : Nat) (comp type : Option String)
    (start endV : Int) :
    (("Last-Modified" ∈ headerNames (sendActions cfg a)) ↔ cfg.lastModified = true) ∧
    (("ETag" ∈ headerNames (sendActions cfg a)) ↔ cfg.etag = true) ∧
    "Last-Modified" ∈ headerNames
      (streamHeaderActions cfg range mtimeStr mtimeMs size comp type start endV) ∧
    "ETag" ∈ headerNames
      (streamHeaderActions cfg range mtimeStr mtimeMs size comp type start endV) := by
  obtain ⟨root, comps, lm, et, cOn, mss, mcs, mc⟩ := cfg
  obtain ⟨pa, ms, mm, bs, ac, at'⟩ := a
  refine ⟨?_, ?_, ?_, ?_⟩
  · cases lm <;> cases et <;> cases ac <;> cases at' <;>
      simp [sendActions, headerNames]
  · cases lm <;> cases et <;> cases ac <;> cases at' <;>
      simp [sendActions, headerNames]
  · by_cases hr : range ≠ "" <;> cases comp <;> cases type <;>
      simp [streamHeaderActions, headerNames, hr]
  · by_cases hr : range ≠ "" <;> cases comp <;> cases type <;>
      simp [streamHeaderActions, headerNames, hr]

/-- C6: the known-total pump corrupts the byte stream under partial accepts.
With the single five-byte chunk `[1,2,3,4,5]` and a writer that accepts 2
bytes of the first `tryEnd`, 0 bytes of the first retry, and everything
afterwards, the incomplete retry runs `lastOffset = getWriteOffset()`; the
next retry then slices the chunk from index `offset - lastOffset = 0` and
resends it whole, delivering `[1,2,1,2,3,4,5]` — the first two bytes
duplicated — while reporting the transfer `done`. -/
theorem c6_pump_duplicates_bytes :
    pump ⟨[], 5⟩ [[1, 2, 3, 4, 5]] [2, 0, 5]
      = (⟨[1, 2, 1, 2, 3, 4, 5], 5⟩, true) ∧
    (([1, 2, 1, 2, 3, 4, 5] : List Nat) == [1, 2, 3, 4, 5]) = false := by
  decide

/-! ### Range-parse lemmas (C7/C8) -/

theorem isDigit_not_space {c : Char} (h : c.isDigit = true) : jsIsSpace c = false := by
  simp only [jsIsSpace, decide_eq_false_iff_not]
  rintro (rfl | rfl | rfl | rfl) <;> exact absurd h (by decide)

theorem isDigit_ne_dash {c : Char} (h : c.isDigit = true) : c ≠ '-' := by
  rintro rfl; exact absurd h (by decide)

theorem isDigit_ne_plus {c : Char} (h : c.isDigit = true) : c ≠ '+' := by
  rintro rfl; exact absurd h (by decide)

theorem range_toList (A B : String) :
    ("bytes=" ++ A ++ "-" ++ B).toList
      = 'b' :: 'y' :: 't' :: 'e' :: 's' :: '=' :: (A.toList ++ '-' :: B.toList) := by
  show ((("bytes=" ++ A) ++ "-") ++ B).data = _
  simp only [String.data_append, List.append_assoc]
  rfl

theorem findIdx?_dash_of_digits {l : List Char} (h : ∀ c ∈ l, c.isDigit = true) :
    l.findIdx? (fun c => c = '-') = none := by
  rw [List.findIdx?_eq_none_iff]
  intro c hc
  simpa using isDigit_ne_dash (h c hc)

theorem dashIdx_range (A B : String) (hA : ∀ c ∈ A.toList, c.isDigit = true) :
    dashIdx ("bytes=" ++ A ++ "-" ++ B) = ((A.toList.length + 6 : Nat) : Int) := by
  unfold dashIdx jsIndexOfChar
  rw [show ("bytes=" ++ A ++ "-" ++ B).toList
      = (['b', 'y', 't', 'e', 's', '='] ++ (A.toList ++ '-' :: B.toList)) from
      range_toList A B]
  rw [List.findIdx?_append, List.findIdx?_append]
  rw [findIdx?_dash_of_digits hA]
  simp

theorem jsParseInt_all_digits (s : String) (hne : s.toList ≠ [])
    (h : ∀ c ∈ s.toList, c.isDigit = true) :
    jsParseInt s = some ((decNat s.toList : Nat) : Int) := by
  obtain ⟨c, cs, hcons⟩ : ∃ c cs, s.toList = c :: cs := by
    cases hs : s.toList with
    | nil => exact absurd hs hne
    | cons c cs => exact ⟨c, cs, rfl⟩
  have hc : c.isDigit = true := h c (hcons ▸ List.mem_cons_self c cs)
  have h1 : s.toList.dropWhile jsIsSpace = c :: cs := by
    rw [hcons, List.dropWhile_cons, if_neg (by simp [isDigit_not_space hc])]
  have h2 : ∀ x ∈ c :: cs, x.isDigit = true := hcons ▸ h
  have hds : List.takeWhile Char.isDigit (c :: cs) = c :: cs :=
    List.takeWhile_eq_self_iff.mpr h2
  unfold jsParseInt
  dsimp only
  rw [h1]
  simp only [List.head?_cons, Option.some.injEq, isDigit_ne_dash hc,
    isDigit_ne_plus hc, false_or, if_false, hds]
  rw [show (c :: cs).isEmpty = false from rfl]
  simp only [Bool.false_eq_true, if_false, one_mul, Option.some.injEq]
  show (decNat (c :: cs) : Int) = (decNat s.toList : Int)
  rw [hcons]

theorem drop_min_length {α : Type} (l : List α) (n : Nat) :
    l.drop (min n l.length) = l.drop n := by
  rcases le_total n l.length with h | h
  · rw [min_eq_left h]
  · rw [min_eq_right h, List.drop_eq_nil_of_le (le_refl _),
      List.drop_eq_nil_of_le h]

theorem jsSliceFrom_nat (s : String) (n : Nat) :
    jsSliceFrom s (n : Int) = ⟨s.toList.drop n⟩ := by
  unfold jsSliceFrom jsSlice jsSliceIdx
  dsimp only
  rw [if_neg (by omega), if_neg (by omega), Int.toNat_ofNat, Int.toNat_natCast,
    min_self, List.take_length, drop_min_length]

theorem jsSlice_nat (s : String) (a b : Nat) (ha : a ≤ s.toList.length)
    (hb : b ≤ s.toList.length) :
    jsSlice s (a : Int) (b : Int) = ⟨(s.toList.take b).drop a⟩ := by
  unfold jsSlice jsSliceIdx
  dsimp only
  rw [if_neg (by omega), if_neg (by omega), Int.toNat_ofNat, Int.toNat_ofNat,
    min_eq_left ha, min_eq_left hb]

theorem range_toList_length (A B : String) :
    ("bytes=" ++ A ++ "-" ++ B).toList.length
      = A.toList.length + B.toList.length + 7 := by
  rw [range_toList]
  simp only [List.length_cons, List.length_append, List.length_cons]
  omega

theorem sliceFrom_range (A B : String) (hA : ∀ c ∈ A.toList, c.isDigit = true) :
    jsSliceFrom ("bytes=" ++ A ++ "-" ++ B) (dashIdx ("bytes=" ++ A ++ "-" ++ B) + 1)
      = B := by
  rw [dashIdx_range A B hA,
    show (((A.toList.length + 6 : Nat) : Int) + 1) = ((A.toList.length + 7 : Nat) : Int) by
      push_cast; ring,
    jsSliceFrom_nat, range_toList]
  have hsplit : 'b' :: 'y' :: 't' :: 'e' :: 's' :: '=' :: (A.toList ++ '-' :: B.toList)
      = (('b' :: 'y' :: 't' :: 'e' :: 's' :: '=' :: A.toList) ++ ['-']) ++ B.toList := by
    simp
  rw [hsplit]
  rw [show A.toList.length + 7
        = (('b' :: 'y' :: 't' :: 'e' :: 's' :: '=' :: A.toList) ++ ['-']).length by
      simp only [List.length_append, List.length_cons, List.length_nil]
      try omega]
  rw [List.drop_left]
  try rfl

theorem slice_range_start (A B : String) (hA : ∀ c ∈ A.toList, c.isDigit = true) :
    jsSlice ("bytes=" ++ A ++ "-" ++ B) 6 (dashIdx ("bytes=" ++ A ++ "-" ++ B)) = A := by
  rw [dashIdx_range A B hA,
    show (6 : Int) = ((6 : Nat) : Int) from rfl,
    jsSlice_nat _ 6 _ (by rw [range_toList_length]; omega)
      (by rw [range_toList_length]; omega),
    range_toList]
  have hsplit : 'b' :: 'y' :: 't' :: 'e' :: 's' :: '=' :: (A.toList ++ '-' :: B.toList)
      = ('b' :: 'y' :: 't' :: 'e' :: 's' :: '=' :: A.toList) ++ ('-' :: B.toList) := by
    simp
  rw [hsplit,
    show A.toList.length + 6 = ('b' :: 'y' :: 't' :: 'e' :: 's' :: '=' :: A.toList).length by
      simp only [List.length_cons]
      try omega,
    List.take_left]
  show String.mk (List.drop 6 ('b' :: 'y' :: 't' :: 'e' :: 's' :: '=' :: A.toList)) = A
  rfl

theorem string_eq_of_toList {s t : String} (h : s.toList = t.toList) : s = t := by
  cases s; cases t
  exact congrArg String.mk (by simpa using h)

theorem toList_ne_nil {s : String} (h : s ≠ "") : s.toList ≠ [] := fun hl =>
  h (string_eq_of_toList (hl.trans rfl))

/-- C7: the Range parse of the stream pump — for a header `bytes=A-B` (`A`,
`B` digit strings, possibly empty): `end` is the integer after `-`,
defaulting to `size - 1` when it is absent or zero; `start` is the integer
between `=` and `-`, defaulting to `size - end - 1` when absent; and the
transfer total is `end - start + 1`. -/
theorem c7_range_parse (size : Int) (A B : String)
    (hA : ∀ c ∈ A.toList, c.isDigit = true)
    (hB : ∀ c ∈ B.toList, c.isDigit = true) :
    (B = "" → rangeEnd ("bytes=" ++ A ++ "-" ++ B) size = size - 1) ∧
    (decNat B.toList = 0 → rangeEnd ("bytes=" ++ A ++ "-" ++ B) size = size - 1) ∧
    (B ≠ "" → decNat B.toList ≠ 0 →
       rangeEnd ("bytes=" ++ A ++ "-" ++ B) size = ((decNat B.toList : Nat) : Int)) ∧
    (A = "" → rangeStartN ("bytes=" ++ A ++ "-" ++ B) size
        = some (size - rangeEnd ("bytes=" ++ A ++ "-" ++ B) size - 1)) ∧
    (A ≠ "" → rangeStartN ("bytes=" ++ A ++ "-" ++ B) size
        = some ((decNat A.toList : Nat) : Int)) ∧
    (∃ st, rangeStartN ("bytes=" ++ A ++ "-" ++ B) size = some st ∧
       rangeTotal ("bytes=" ++ A ++ "-" ++ B) size
         = some (rangeEnd ("bytes=" ++ A ++ "-" ++ B) size - st + 1)) := by
  have hEndDef : rangeEnd ("bytes=" ++ A ++ "-" ++ B) size
      = match jsParseInt B with
        | some n => if n = 0 then size - 1 else n
        | none => size - 1 := by
    unfold rangeEnd
    rw [sliceFrom_range A B hA]
  have hStartDef : rangeStartN ("bytes=" ++ A ++ "-" ++ B) size
      = if A = "" then some (size - rangeEnd ("bytes=" ++ A ++ "-" ++ B) size - 1)
        else jsParseInt A := by
    unfold rangeStartN
    dsimp only
    rw [slice_range_start A B hA]
  have hStartSome : ∃ st, rangeStartN ("bytes=" ++ A ++ "-" ++ B) size = some st := by
    rw [hStartDef]
    by_cases hAe : A = ""
    · exact ⟨_, if_pos hAe⟩
    · rw [if_neg hAe, jsParseInt_all_digits A (toList_ne_nil hAe) hA]
      exact ⟨_, rfl⟩
  refine ⟨?_, ?_, ?_, ?_, ?_, ?_⟩
  · intro hBe
    subst hBe
    rw [hEndDef]
    rfl
  · intro hB0
    rw [hEndDef]
    by_cases hBe : B = ""
    · subst hBe; rfl
    · rw [jsParseInt_all_digits B (toList_ne_nil hBe) hB]
      have hB0' : decNat B.data = 0 := hB0
      simp [hB0, hB0']
  · intro hBe hB0
    rw [hEndDef, jsParseInt_all_digits B (toList_ne_nil hBe) hB]
    have hne : ((decNat B.toList : Nat) : Int) ≠ 0 := by exact_mod_cast hB0
    have hB0d : decNat B.data ≠ 0 := hB0
    simp [hne, hB0d]
  · intro hAe
    rw [hStartDef, if_pos hAe]
  · intro hAe
    rw [hStartDef, if_neg hAe, jsParseInt_all_digits A (toList_ne_nil hAe) hA]
  · obtain ⟨st, hst⟩ := hStartSome
    refine ⟨st, hst, ?_⟩
    unfold rangeTotal
    rw [hst]
    rfl

/-- C7 witness: `Range: bytes=100-199` against a 1 000 000-byte file parses
to `start = 100`, `end = 199`, `total = 100`. -/
theorem c7_witness :
    ("bytes=" ++ "100" ++ "-" ++ "199") = "bytes=100-199" ∧
    rangeEnd ("bytes=" ++ "100" ++ "-" ++ "199") 1000000 = 199 ∧
    rangeStartN ("bytes=" ++ "100" ++ "-" ++ "199") 1000000 = some 100 ∧
    rangeTotal ("bytes=" ++ "100" ++ "-" ++ "199") 1000000 = some 100 := by
  have h := c7_range_parse 1000000 "100" "199" (by decide) (by decide)
  refine ⟨by decide, ?_, ?_, by decide⟩
  · rw [h.2.2.1 (by decide) (by decide)]
    decide
  · rw [h.2.2.2.2.1 (by decide)]
    decide

/-- C8: on a live (non-aborted) request, the stream pump emits the 416
response — status `416 Range Not Satisfiable`, header
`Content-Range: bytes */(size-1)`, body `Range Not Satisfiable` — if and
only if the parsed `end` is at least the file size, and in that case the
read stream over the file is never opened and the emitted actions carry no
file body bytes. -/
theorem c8_416_iff_end_ge_size (range : String) (size : Int) :
    ((streamSetup false range size =
        .notSatisfiable ("bytes */" ++ toString (size - 1)) "Range Not Satisfiable")
      ↔ rangeEnd range size ≥ size) ∧
    (rangeEnd range size ≥ size → opensRange (streamSetup false range size) = none) ∧
    sendsFileBytes (notSatisfiableActions size) = false := by
  refine ⟨?_, ?_, rfl⟩
  · by_cases h : rangeEnd range size ≥ size
    · simp [streamSetup, h]
    · simp [streamSetup, h]
  · intro h
    simp [streamSetup, h, opensRange]

/-- C8 witness: `Range: bytes=0-1000000` against a 1000-byte file: the
parsed `end` (1000000) reaches the size, so the 416 branch runs and no read
stream is opened. -/
theorem c8_witness :
    rangeEnd "bytes=0-1000000" 1000 ≥ 1000 ∧
    opensRange (streamSetup false "bytes=0-1000000" 1000) = none :=
  ⟨by decide, (c8_416_iff_end_ge_size "bytes=0-1000000" 1000).2.1 (by decide)⟩

/-! ### Cache-shard lemmas (C9) -/

theorem getEncoding_ne_identity (x : String) (sup : List String) (t : Option String) :
    getEncoding x sup t ≠ some "identity" := by
  unfold getEncoding
  by_cases hx : x = ""
  · simp [hx]
  · rw [if_neg hx]
    dsimp only
    cases hfind : (parseAcceptEncoding x sup).find?
        (fun e => decide (e.type ∈ compressorNames)) with
    | none => cases t <;> simp [hfind]
    | some e =>
      by_cases hid : e.type = "identity"
      · cases t <;> simp [hfind, hid]
      · cases t with
        | none => simp
        | some tv =>
          by_cases htc : tv ∈ compressable <;> simp [hfind, hid, htc]

theorem negotiated_ne_identity {cfg : Config} {st : Req} {p comp : String}
    (h : negotiatedCompressor cfg st p = some comp) : comp ≠ "identity" := by
  unfold negotiatedCompressor at h
  split at h
  · intro hc
    subst hc
    exact getEncoding_ne_identity _ _ _ h
  · exact Option.noConfusion h

theorem hasKey_insert_self (c : Caches) (s p : String) :
    (c.insert s p).hasKey s p = true := by
  simp [Caches.insert, Caches.hasKey]

theorem hasKey_insert_keeps (c : Caches) {s p : String} (s' p' : String)
    (h : c.hasKey s p = true) : (c.insert s' p').hasKey s p = true := by
  simp only [Caches.insert, Caches.hasKey, decide_eq_true_eq, List.mem_cons] at h ⊢
  exact Or.inr h

theorem hasKey_insert_ne (c : Caches) {s s' : String} (p p' : String) (h : s ≠ s') :
    (c.insert s' p').hasKey s p = c.hasKey s p := by
  simp only [Caches.insert, Caches.hasKey, List.mem_cons, decide_eq_decide,
    Prod.mk.injEq]
  constructor
  · rintro (⟨rfl, rfl⟩ | hm)
    · exact absurd rfl h
    · exact hm
  · exact Or.inr

/-- The behaviour of one live non-range request on a sub-`minCompressSize`
file when the pre-stat negotiated compressor is `comp` and the `comp` shard
misses: the file is read from disk and the artifact is stored in the
`identity` shard (the compressor was forced off after the stat). -/
theorem handleFile_shard_mismatch (cfg : Config) (c : Caches) (st : Req)
    (fs : String → Option FsFile) (cf : String → List Nat → List Nat)
    (f : FsFile) (comp : String)
    (hrange : st.range = "")
    (hguard : jsIndexOf (absolute cfg.root st.url) cfg.root = 0)
    (hneg : negotiatedCompressor cfg st (absolute cfg.root st.url) = some comp)
    (hfs : fs (absolute cfg.root st.url) = some f)
    (h1 : f.size < cfg.minCompressSize)
    (h2 : f.size < cfg.minStreamSize)
    (h3 : f.size < cfg.maxCacheSize)
    (hc : cfg.cacheOn = true)
    (hmiss : c.hasKey comp (absolute cfg.root st.url) = false) :
    handleFile cfg c st fs cf false
      = (.diskSent (absolute cfg.root st.url),
         c.insert "identity" (absolute cfg.root st.url)) := by
  have hfile : fileStep cfg c st (absolute cfg.root st.url)
      = .readDisk (absolute cfg.root st.url)
          (mimeOf st.ext (absolute cfg.root st.url)) (some comp) := by
    unfold fileStep
    rw [if_neg (by simp [hguard]), if_neg (by simp [hrange])]
    dsimp only
    rw [hneg]
    rw [if_neg (by simp [shardOf, hmiss])]
  unfold handleFile
  dsimp only
  rw [hfile]
  dsimp only
  rw [hfs]
  dsimp only
  rw [if_neg (show ¬ f.size ≥ cfg.minStreamSize by omega)]
  rw [if_pos h1]
  rw [if_pos (And.intro hc h3)]
  simp [shardOf]

/-- The C9 invariant, by induction over the request count. -/
theorem c9_aux (cfg : Config) (st : Req) (fs : String → Option FsFile)
    (cf : String → List Nat → List Nat) (f : FsFile) (comp : String)
    (hrange : st.range = "")
    (hguard : jsIndexOf (absolute cfg.root st.url) cfg.root = 0)
    (hneg : negotiatedCompressor cfg st (absolute cfg.root st.url) = some comp)
    (hfs : fs (absolute cfg.root st.url) = some f)
    (h1 : f.size < cfg.minCompressSize)
    (h2 : f.size < cfg.minStreamSize)
    (h3 : f.size < cfg.maxCacheSize)
    (hc : cfg.cacheOn = true) :
    ∀ (n : Nat) (c : Caches),
      c.hasKey comp (absolute cfg.root st.url) = false →
      (∀ o ∈ (iterateReq cfg st fs cf n c).1,
         o = .diskSent (absolute cfg.root st.url)) ∧
      (iterateReq cfg st fs cf n c).2.hasKey comp (absolute cfg.root st.url) = false ∧
      (c.hasKey "identity" (absolute cfg.root st.url) = true →
        (iterateReq cfg st fs cf n c).2.hasKey "identity" (absolute cfg.root st.url) = true) ∧
      (1 ≤ n →
        (iterateReq cfg st fs cf n c).2.hasKey "identity" (absolute cfg.root st.url) = true) := by
  intro n
  induction n with
  | zero =>
    intro c hmiss
    refine ⟨by simp [iterateReq], by simpa [iterateReq] using hmiss, ?_, by omega⟩
    intro hid
    simpa [iterateReq] using hid
  | succ n ih =>
    intro c hmiss
    have hstep := handleFile_shard_mismatch cfg c st fs cf f comp
      hrange hguard hneg hfs h1 h2 h3 hc hmiss
    have hmiss1 : (c.insert "identity" (absolute cfg.root st.url)).hasKey comp
        (absolute cfg.root st.url) = false := by
      rw [hasKey_insert_ne c _ _ (negotiated_ne_identity hneg)]
      exact hmiss
    obtain ⟨ihall, ihmiss, ihkeep, ihone⟩ := ih (c.insert "identity" (absolute cfg.root st.url)) hmiss1
    have hfinal := ihkeep (hasKey_insert_self c "identity" (absolute cfg.root st.url))
    refine ⟨?_, ?_, ?_, ?_⟩
    · intro o ho
      simp only [iterateReq, hstep] at ho
      rcases List.mem_cons.mp ho with rfl | ho'
      · rfl
      · exact ihall o ho'
    · simpa [iterateReq, hstep] using ihmiss
    · intro _
      simpa [iterateReq, hstep] using hfinal
    · intro _
      simpa [iterateReq, hstep] using hfinal

/-- C9: for a file below `minCompressSize` requested with a non-identity
negotiated encoding, the lookup shard (named by the pre-stat compressor) and
the store shard (`identity`, because the compressor is forced off after the
stat) never match: every one of `n` identical live requests misses the cache
and reads the disk, the negotiated shard never gains the entry, and from the
first request on, the artifact sits uselessly in the `identity` shard. -/
theorem c9_small_file_cache_never_hit (cfg : Config) (st : Req)
    (fs : String → Option FsFile) (cf : String → List Nat → List Nat)
    (f : FsFile) (comp : String) (n : Nat) (c0 : Caches)
    (hrange : st.range = "")
    (hguard : jsIndexOf (absolute cfg.root st.url) cfg.root = 0)
    (hneg : negotiatedCompressor cfg st (absolute cfg.root st.url) = some comp)
    (hfs : fs (absolute cfg.root st.url) = some f)
    (h1 : f.size < cfg.minCompressSize)
    (h2 : f.size < cfg.minStreamSize)
    (h3 : f.size < cfg.maxCacheSize)
    (hc : cfg.cacheOn = true)
    (hmiss : c0.hasKey comp (absolute cfg.root st.url) = false) :
    (∀ o ∈ (iterateReq cfg st fs cf n c0).1,
       o = .diskSent (absolute cfg.root st.url)) ∧
    (iterateReq cfg st fs cf n c0).2.hasKey comp (absolute cfg.root st.url) = false ∧
    (1 ≤ n →
      (iterateReq cfg st fs cf n c0).2.hasKey "identity" (absolute cfg.root st.url) = true) := by
  obtain ⟨hall, hm, _, hone⟩ :=
    c9_aux cfg st fs cf f comp hrange hguard hneg hfs h1 h2 h3 hc n c0 hmiss
  exact ⟨hall, hm, hone⟩

/-- C9 witness: the theorem applied to a 300-byte `text/plain` file under a
default configuration with `Accept-Encoding: gzip` — two identical requests
both read the disk, the `gzip` shard stays empty, the `identity` shard holds
the entry. -/
theorem c9_witness :
    (∀ o ∈ (iterateReq {root := "/srv"}
        {url := "/tiny.txt", ext := "txt", encoding := "gzip"}
        (fun p => if p = "/srv/tiny.txt" then some ⟨300, "m", 0, [1, 2, 3]⟩ else none)
        (fun _ b => b) 2 ⟨[]⟩).1,
       o = ReqOutcome.diskSent (absolute "/srv" "/tiny.txt")) ∧
    (iterateReq {root := "/srv"}
        {url := "/tiny.txt", ext := "txt", encoding := "gzip"}
        (fun p => if p = "/srv/tiny.txt" then some ⟨300, "m", 0, [1, 2, 3]⟩ else none)
        (fun _ b => b) 2 ⟨[]⟩).2.hasKey "gzip" (absolute "/srv" "/tiny.txt") = false ∧
    (1 ≤ 2 →
      (iterateReq {root := "/srv"}
          {url := "/tiny.txt", ext := "txt", encoding := "gzip"}
          (fun p => if p = "/srv/tiny.txt" then some ⟨300, "m", 0, [1, 2, 3]⟩ else none)
          (fun _ b => b) 2 ⟨[]⟩).2.hasKey "identity" (absolute "/srv" "/tiny.txt") = true) :=
  c9_small_file_cache_never_hit {root := "/srv"}
    {url := "/tiny.txt", ext := "txt", encoding := "gzip"}
    (fun p => if p = "/srv/tiny.txt" then some ⟨300, "m", 0, [1, 2, 3]⟩ else none)
    (fun _ b => b) ⟨300, "m", 0, [1, 2, 3]⟩ "gzip" 2 ⟨[]⟩
    (by decide) (by decide) (by decide) (by decide) (by decide) (by decide)
    (by decide) (by decide) (by decide)

/-! ### Malformed percent-encoding lemmas (C10) -/

theorem pctMalformed_cons_ne (c : Char) (rest : List Char) (h : ¬ c = '%') :
    pctMalformed (c :: rest) = pctMalformed rest := by
  rw [pctMalformed.eq_def]
  split
  · rename_i heq; cases heq
  · rename_i a b r heq
    rw [List.cons.injEq] at heq
    exact absurd heq.1 h
  · rename_i heq
    rw [List.cons.injEq] at heq
    exact absurd heq.1 h
  · rename_i c' r heq
    rw [List.cons.injEq] at heq
    rw [heq.2]

theorem pctTokens_cons_ne (c : Char) (rest : List Char) (h : ¬ c = '%') :
    pctTokens (c :: rest) = (Sum.inl c :: ·) <$> pctTokens rest := by
  rw [pctTokens.eq_def]
  split
  · rename_i heq; cases heq
  · rename_i a b r heq
    rw [List.cons.injEq] at heq
    exact absurd heq.1 h
  · rename_i heq
    rw [List.cons.injEq] at heq
    exact absurd heq.1 h
  · rename_i c' r heq
    rw [List.cons.injEq] at heq
    rw [heq.1, heq.2]

theorem pctTokens_none_of_malformed (l : List Char) :
    pctMalformed l = true → pctTokens l = none := by
  induction l using pctTokens.induct with
  | case1 => intro h; exact absurd h (by decide)
  | case2 a b rest hab =>
      intro _
      show (match pctByte a b with
            | none => none
            | some v => (Sum.inr v :: ·) <$> pctTokens rest) = none
      rw [hab]
  | case3 a b rest v hab ih =>
      intro h
      have h' : ((pctByte a b).isNone || pctMalformed rest) = true := h
      rw [hab] at h'
      have hm : pctMalformed rest = true := by simpa using h'
      show (match pctByte a b with
            | none => none
            | some v => (Sum.inr v :: ·) <$> pctTokens rest) = none
      rw [hab, ih hm]
      rfl
  | case4 tail hshape =>
      intro _
      cases tail with
      | nil => rfl
      | cons x xs =>
        cases xs with
        | nil => rfl
        | cons y ys => exact (hshape x y ys rfl).elim
  | case5 c rest hsh hne ih =>
      intro h
      rw [pctMalformed_cons_ne c rest hne] at h
      rw [pctTokens_cons_ne c rest hne, ih h]
      rfl

/-- C10: a request URL containing a malformed percent-encoding (a `%` not
followed by two hex digits) makes `decodeURIComponent` throw a `URIError`
synchronously inside the handler, before the request state is built; the
handler has no catch, so the exception escapes: no status line, header, or
body is written and neither `notFound` nor `internalError` runs (the
`threwURIError` outcome, which carries no dispatch and no actions). -/
theorem c10_malformed_percent_uncaught (cfg : Config) (caches : Caches)
    (fs : String → Option FsFile) (cf : String → List Nat → List Nat)
    (urlIndex : Nat) (rawUrl acceptH encodingH rangeH : String)
    (h : pctMalformed (jsSliceFrom rawUrl urlIndex).toList = true) :
    decodeURIComponent (jsSliceFrom rawUrl urlIndex) = none ∧
    handlerStep cfg caches fs cf urlIndex rawUrl acceptH encodingH rangeH
      = .threwURIError := by
  have hdec : decodeURIComponent (jsSliceFrom rawUrl urlIndex) = none := by
    unfold decodeURIComponent
    rw [pctTokens_none_of_malformed _ h]
    rfl
  refine ⟨hdec, ?_⟩
  unfold handlerStep getStateM
  rw [hdec]
  rfl

/-- C10 witness: the URL `"/%"` is malformed and the handler invocation
throws before anything is emitted. -/
theorem c10_witness :
    pctMalformed (jsSliceFrom "/%" 0).toList = true ∧
    handlerStep {root := "/srv"} ⟨[]⟩ (fun _ => none) (fun _ b => b) 0 "/%" "" "" ""
      = .threwURIError :=
  ⟨by decide,
   (c10_malformed_percent_uncaught {root := "/srv"} ⟨[]⟩ (fun _ => none)
      (fun _ b => b) 0 "/%" "" "" "" (by decide)).2⟩

end UStatic
